import Mathlib

/-!
Shallow embedding of the prediction pipeline of the rustfig repository:
the prediction model types (`src/prediction/models.rs`), the ranker
(`src/prediction/ranking.rs`), the user-learning system
(`src/prediction/learning.rs`), the prediction cache
(`src/prediction/cache.rs`) and the engine (`src/prediction/engine.rs`).

Rust `f32` confidence arithmetic is embedded as exact rational arithmetic
(`ℚ`); `Instant`/epoch timestamps are embedded as `Nat` instants passed
explicitly; hash maps are embedded as association lists (with distinct
keys carried as hypotheses where relevant); Rust's stable `sort_by` is
embedded as `List.insertionSort`, which is stable — a stable sort's output
is uniquely determined by the comparator and the input order, so any stable
sort embeds Rust's stable sort faithfully.
-/

namespace RustFig

open List

/-- `PredictionType` from `src/prediction/models.rs`. -/
inductive PredictionType where
  | FullCommand
  | NextToken
  | Flag
  | ArgumentValue
  | Path
deriving DecidableEq, Repr

/-- `PredictionSource` from `src/prediction/models.rs`. -/
inductive PredictionSource where
  | History
  | DirectoryContext
  | ProjectType
  | GitContext
  | CommandPatterns
  | UserPatterns
deriving DecidableEq, Repr

/-- `Confidence` newtype from `src/prediction/models.rs` (`pub struct Confidence(pub f32)`). -/
structure Confidence where
  val : ℚ
deriving DecidableEq, Repr

/-- `Confidence::is_high_enough_for_ghost` from `src/prediction/models.rs`: `self.0 >= 0.4`. -/
def Confidence.is_high_enough_for_ghost (c : Confidence) : Bool :=
  decide ((4 / 10 : ℚ) ≤ c.val)

/-- `Prediction` from `src/prediction/models.rs`.  `timestamp` (an `Instant`
in the source) is embedded as a `Nat` instant; `metadata` (a `HashMap`) as an
association list. -/
structure Prediction where
  text : String
  display_text : String
  prediction_type : PredictionType
  source : PredictionSource
  confidence : Confidence
  tokens_completed : Nat
  explanation : Option String
  usage_count : Nat
  timestamp : Nat
  metadata : List (String × String)
deriving DecidableEq, Repr

/-- `Prediction::new` from `src/prediction/models.rs`.  The source stamps
`timestamp: Instant::now()`; the creation instant is never read by the
pipeline logic verified here, so it is embedded as the constant instant 0. -/
def Prediction.new (text : String) (prediction_type : PredictionType)
    (source : PredictionSource) (confidence : Confidence) : Prediction :=
  { text := text
    display_text := text
    prediction_type := prediction_type
    source := source
    confidence := confidence
    tokens_completed := 1
    explanation := none
    usage_count := 0
    timestamp := 0
    metadata := [] }

/-- `Prediction::get_ghost_text` from `src/prediction/models.rs`: empty input
shows the whole text; otherwise the not-yet-typed tail of `text` when `text`
starts with the input, else nothing.  Rust byte slicing after a successful
`starts_with` is embedded as dropping the matched characters. -/
def Prediction.get_ghost_text (p : Prediction) (current_input : String) : String :=
  if current_input = "" then p.text
  else if current_input.data.isPrefixOf p.text.data then
    String.mk (p.text.data.drop current_input.data.length)
  else ""

/-! ## Ranker (`src/prediction/ranking.rs`) -/

/-- The scoring pass of `PredictionRanker::rank` (the body of its first
`for` loop): source multiplier, type multiplier, usage bonus, clamp to 1. -/
def PredictionRanker.applyScore (p : Prediction) : Prediction :=
  let score := p.confidence.val
  let score := match p.source with
    | PredictionSource.History => score * (12 / 10)
    | PredictionSource.UserPatterns => score * (13 / 10)
    | PredictionSource.GitContext => score * (11 / 10)
    | _ => score
  let score := match p.prediction_type with
    | PredictionType.FullCommand => score * (11 / 10)
    | _ => score
  let score := if 0 < p.usage_count then
      score + min ((p.usage_count : ℚ)) 5 / 5 * (2 / 10)
    else score
  { p with confidence := ⟨min score 1⟩ }

/-- The comparator of `PredictionRanker::rank`'s `sort_by`
(`b.confidence.0.partial_cmp(&a.confidence.0)`): `a` may precede `b`
exactly when `b`'s confidence is at most `a`'s (descending order). -/
def rankLe (a b : Prediction) : Prop :=
  b.confidence.val ≤ a.confidence.val

instance : DecidableRel rankLe :=
  fun a b => inferInstanceAs (Decidable (b.confidence.val ≤ a.confidence.val))

instance : IsTotal Prediction rankLe :=
  ⟨fun a b => le_total b.confidence.val a.confidence.val⟩

instance : IsTrans Prediction rankLe :=
  ⟨fun _ _ _ h₁ h₂ => le_trans h₂ h₁⟩

/-- The loop of `PredictionRanker::dedup_predictions`: walk the list with
the set of already-seen texts, removing a prediction whose text was seen. -/
def PredictionRanker.dedupGo (seen : List String) : List Prediction → List Prediction
  | [] => []
  | p :: rest =>
    if p.text ∈ seen then PredictionRanker.dedupGo seen rest
    else p :: PredictionRanker.dedupGo (p.text :: seen) rest

/-- `PredictionRanker::dedup_predictions` from `src/prediction/ranking.rs`. -/
def PredictionRanker.dedup_predictions (predictions : List Prediction) : List Prediction :=
  PredictionRanker.dedupGo [] predictions

/-- `PredictionRanker::rank` from `src/prediction/ranking.rs`: score every
prediction, stable-sort descending by adjusted confidence, deduplicate. -/
def PredictionRanker.rank (predictions : List Prediction) : List Prediction :=
  PredictionRanker.dedup_predictions
    (List.insertionSort rankLe (predictions.map PredictionRanker.applyScore))

/-- `PredictionRanker::filter_for_ghost` from `src/prediction/ranking.rs`. -/
def PredictionRanker.filter_for_ghost (predictions : List Prediction) : Option Prediction :=
  predictions.find? (fun p => p.confidence.is_high_enough_for_ghost)

/-! ## User learning system (`src/prediction/learning.rs`) -/

/-- `PatternData` from `src/prediction/learning.rs` (`last_used` epoch seconds
embedded as `Nat`). -/
structure PatternData where
  count : Nat
  last_used : Nat
deriving DecidableEq, Repr

/-- The learned command-pattern map (`HashMap<String, PatternData>`),
embedded as an association list. -/
abbrev PatternMap := List (String × PatternData)

/-- `UserLearningSystem::record_accepted_prediction` (its command-pattern
update): `entry(command).or_insert(count 0).count += 1`, `last_used = now`.
The periodic disk save is I/O and is not part of the embedded state. -/
def UserLearningSystem.record_accepted_prediction (patterns : PatternMap)
    (p : Prediction) (now : Nat) : PatternMap :=
  let command := p.text
  match List.lookup command patterns with
  | some entry =>
      patterns.map (fun kv =>
        if kv.1 = command then (command, { count := entry.count + 1, last_used := now })
        else kv)
  | none => patterns ++ [(command, { count := 1, last_used := now })]

/-- `n` successive calls of `record_accepted_prediction` for the same
prediction. -/
def UserLearningSystem.recordN (patterns : PatternMap) (p : Prediction)
    (now : Nat) : Nat → PatternMap
  | 0 => patterns
  | Nat.succ k =>
      UserLearningSystem.record_accepted_prediction
        (UserLearningSystem.recordN patterns p now k) p now

/-- `UserLearningSystem::adjust_scores` from `src/prediction/learning.rs`:
boost every prediction whose text matches a learned pattern by
`min(count, 10) / 10`, clamped to 1; leave the rest untouched.  The `input`
parameter is unused, as in the source. -/
def UserLearningSystem.adjust_scores (patterns : PatternMap)
    (predictions : List Prediction) (input : String) : List Prediction :=
  predictions.map (fun p =>
    match List.lookup p.text patterns with
    | some pattern =>
        let boost := min ((pattern.count : ℚ)) 10 / 10
        let current := p.confidence.val
        { p with confidence := ⟨min (current + boost) 1⟩ }
    | none => p)

/-! ## Prediction cache (`src/prediction/cache.rs`) -/

/-- `CacheEntry` from `src/prediction/cache.rs` (`timestamp` embedded as a
`Nat` instant). -/
structure CacheEntry where
  predictions : List Prediction
  timestamp : Nat
deriving DecidableEq, Repr

/-- `PredictionCache` from `src/prediction/cache.rs`; the `HashMap` is
embedded as an association list, `Duration` TTL as a `Nat`. -/
structure PredictionCache where
  cache : List (String × CacheEntry)
  max_entries : Nat
  entry_ttl : Nat
deriving DecidableEq, Repr

/-- `PredictionCache::get`: return the stored list only when present and
strictly younger than the TTL; never mutates the cache (the source takes
`&self` under a read lock). -/
def PredictionCache.get (c : PredictionCache) (key : String) (now : Nat) :
    Option (List Prediction) :=
  match List.lookup key c.cache with
  | some entry =>
      if now - entry.timestamp < c.entry_ttl then some entry.predictions else none
  | none => none

/-- `HashMap::insert` on the association-list embedding: replace the value
under an existing key, otherwise add the binding. -/
def insertEntry (m : List (String × CacheEntry)) (key : String) (e : CacheEntry) :
    List (String × CacheEntry) :=
  if m.any (fun kv => kv.1 == key) then
    m.map (fun kv => if kv.1 = key then (key, e) else kv)
  else m ++ [(key, e)]

/-- The capacity phase of `PredictionCache::cleanup_cache`: stable-sort the
entries by timestamp ascending and remove (by key) the oldest
`max_entries / 3` of them. -/
def removeOldestThird (max_entries : Nat)
    (retained : List (String × CacheEntry)) : List (String × CacheEntry) :=
  let entries := List.insertionSort (fun a b => a.2.timestamp ≤ b.2.timestamp) retained
  let to_remove := max_entries / 3
  let removedKeys := (entries.take to_remove).map Prod.fst
  retained.filter (fun kv => !(removedKeys.contains kv.1))

/-- `PredictionCache::cleanup_cache`: first retain only entries younger than
the TTL; if still at/over capacity, remove the oldest third by age. -/
def PredictionCache.cleanup_cache (max_entries entry_ttl : Nat)
    (m : List (String × CacheEntry)) (now : Nat) : List (String × CacheEntry) :=
  let retained := m.filter (fun kv => decide (now - kv.2.timestamp < entry_ttl))
  if max_entries ≤ retained.length then removeOldestThird max_entries retained
  else retained

/-- `PredictionCache::set`: never cache an empty list; run eviction when at
capacity; then insert the new entry stamped with the current instant. -/
def PredictionCache.set (c : PredictionCache) (key : String)
    (predictions : List Prediction) (now : Nat) : PredictionCache :=
  if predictions = [] then c
  else
    let m := if c.max_entries ≤ c.cache.length then
        PredictionCache.cleanup_cache c.max_entries c.entry_ttl c.cache now
      else c.cache
    { c with cache := insertEntry m key ⟨predictions, now⟩ }

/-! ## Engine (`src/prediction/engine.rs`) -/

/-- Modelled from the spec: `ProjectType` lives in `suggestion/context.rs`,
which is not among the provided sources; §3 of the spec fixes its values as
{Rust, Node, Python, Go, Unknown}. -/
inductive ProjectType where
  | Rust
  | Node
  | Python
  | Go
  | Unknown
deriving DecidableEq, Repr

/-- Modelled from the spec: `Context` lives in `suggestion/context.rs`, which
is not among the provided sources; §3 of the spec fixes it as a snapshot of
current directory, git-repository flag, docker-project flag, current parsed
command token and detected project type (field names as used by
`src/prediction/engine.rs` and `src/prediction/context_analyzers.rs`). -/
structure Context where
  current_dir : String
  in_git_repo : Bool
  in_docker_context : Bool
  current_command : String
  project_type : ProjectType
deriving DecidableEq, Repr

/-- Modelled from the spec: `ParsedCommand` lives in `shell/parser.rs`, which
is not among the provided sources; §4.5/§6 of the spec describe it as a
tokenized command plus arguments plus the in-progress fragment. -/
structure ParsedCommand where
  command : String
  args : List String
  current_fragment : String
deriving DecidableEq, Repr

/-- `PredictionEngine::predict_from_history` from `src/prediction/engine.rs`. -/
def PredictionEngine.predict_from_history (input : String) : List Prediction :=
  if input = "" then
    [Prediction.new "ls -la" PredictionType.FullCommand PredictionSource.History ⟨8 / 10⟩,
     Prediction.new "git status" PredictionType.FullCommand PredictionSource.History ⟨7 / 10⟩]
  else if input = "g" then
    [Prediction.new "git " PredictionType.NextToken PredictionSource.History ⟨9 / 10⟩]
  else if ("git".data.isPrefixOf input.data) then
    if input = "git " then
      [Prediction.new "git status" PredictionType.FullCommand PredictionSource.History ⟨85 / 100⟩,
       Prediction.new "git pull" PredictionType.FullCommand PredictionSource.History ⟨8 / 10⟩]
    else []
  else []

/-- `PredictionEngine::predict_from_directory_context` from
`src/prediction/engine.rs`. -/
def PredictionEngine.predict_from_directory_context (input : String)
    (context : Context) : List Prediction :=
  if input = "" ∨ input = "." ∨ input = "./" then
    match context.project_type with
    | ProjectType.Rust =>
        [Prediction.new "cargo run" PredictionType.FullCommand
           PredictionSource.DirectoryContext ⟨85 / 100⟩,
         Prediction.new "cargo build" PredictionType.FullCommand
           PredictionSource.DirectoryContext ⟨8 / 10⟩]
    | ProjectType.Node =>
        [Prediction.new "npm run dev" PredictionType.FullCommand
           PredictionSource.DirectoryContext ⟨85 / 100⟩,
         Prediction.new "npm install" PredictionType.FullCommand
           PredictionSource.DirectoryContext ⟨8 / 10⟩]
    | _ => []
  else []

/-- `PredictionEngine::predict_from_project_context` from
`src/prediction/engine.rs`. -/
def PredictionEngine.predict_from_project_context (input : String)
    (context : Context) : List Prediction :=
  if input = "" then
    match context.project_type with
    | ProjectType.Rust =>
        [Prediction.new "cargo test" PredictionType.FullCommand
           PredictionSource.ProjectType ⟨7 / 10⟩]
    | ProjectType.Python =>
        [Prediction.new "python -m venv .venv" PredictionType.FullCommand
           PredictionSource.ProjectType ⟨7 / 10⟩]
    | _ => []
  else []

/-- `PredictionEngine::predict_from_git_context` from
`src/prediction/engine.rs`. -/
def PredictionEngine.predict_from_git_context (input : String)
    (context : Context) : List Prediction :=
  if input = "" then
    [Prediction.new "git status" PredictionType.FullCommand
       PredictionSource.GitContext ⟨8 / 10⟩]
  else if input = "git " then
    [Prediction.new "git checkout " PredictionType.NextToken
       PredictionSource.GitContext ⟨7 / 10⟩,
     Prediction.new "git pull origin main" PredictionType.FullCommand
       PredictionSource.GitContext ⟨75 / 100⟩]
  else []

/-- The fan-in tail of `PredictionEngine::generate_predictions`: the source
outputs arrive as whole per-source blocks in a nondeterministic order
(modelled by the `blocks` argument), are appended into one list, adjusted by
the learning system, ranked, and truncated to `limit`. -/
def PredictionEngine.generate_predictions (patterns : PatternMap)
    (blocks : List (List Prediction)) (input : String) (limit : Nat) :
    List Prediction :=
  let all_predictions := blocks.flatten
  let adjusted := UserLearningSystem.adjust_scores patterns all_predictions input
  (PredictionRanker.rank adjusted).take limit

/-- `PredictionEngine::predict` from `src/prediction/engine.rs`: cache fast
path, then parse (the parser from `shell/parser.rs` is not among the provided
sources and is abstracted as the `parse` argument; per the spec its failure
is a signaled "cannot predict"), then generation (abstracted as `generate`,
covering context analysis and the fan-out), then cache population. -/
def PredictionEngine.predict (parse : String → Option ParsedCommand)
    (generate : String → ParsedCommand → Nat → List Prediction)
    (c : PredictionCache) (input : String) (limit : Nat) (now : Nat) :
    List Prediction × PredictionCache :=
  match PredictionCache.get c input now with
  | some predictions => (predictions, c)
  | none =>
    match parse input with
    | none => ([], c)
    | some parsed =>
      let predictions := generate input parsed limit
      (predictions, PredictionCache.set c input predictions now)

/-! ## Worked example of §8.7 of the spec -/

/-- The context of the spec's worked example: a Rust project inside a git
repository. -/
def workedContext : Context :=
  { current_dir := "."
    in_git_repo := true
    in_docker_context := false
    current_command := ""
    project_type := ProjectType.Rust }

/-- The four per-source candidate blocks produced for input `""` in the
worked example, computed by the engine's prediction-source functions. -/
def workedBlocks : List (List Prediction) :=
  [PredictionEngine.predict_from_history "",
   PredictionEngine.predict_from_directory_context "" workedContext,
   PredictionEngine.predict_from_project_context "" workedContext,
   PredictionEngine.predict_from_git_context "" workedContext]

/-- The output the spec requires of `predict("", 5)` in the worked example:
texts in order, adjusted confidences 1, 0.968, 0.935, 0.88, 0.77, and the
surviving "git status" sourced from GitContext. -/
def workedExpected : List Prediction :=
  [{ Prediction.new "ls -la" PredictionType.FullCommand
       PredictionSource.History ⟨8 / 10⟩ with confidence := ⟨1⟩ },
   { Prediction.new "git status" PredictionType.FullCommand
       PredictionSource.GitContext ⟨8 / 10⟩ with confidence := ⟨968 / 1000⟩ },
   { Prediction.new "cargo run" PredictionType.FullCommand
       PredictionSource.DirectoryContext ⟨85 / 100⟩ with confidence := ⟨935 / 1000⟩ },
   { Prediction.new "cargo build" PredictionType.FullCommand
       PredictionSource.DirectoryContext ⟨8 / 10⟩ with confidence := ⟨88 / 100⟩ },
   { Prediction.new "cargo test" PredictionType.FullCommand
       PredictionSource.ProjectType ⟨7 / 10⟩ with confidence := ⟨77 / 100⟩ }]

/-- C1: for the worked example's fixed candidate set — History: "ls -la" 0.8
and "git status" 0.7; DirectoryContext: "cargo run" 0.85 and "cargo build"
0.8; ProjectType: "cargo test" 0.7; GitContext: "git status" 0.8, all
FullCommand with usage count 0 — merging the source blocks in any order and
then applying `adjust_scores` (no learned patterns), `rank` and truncation
to 5, as `predict("", 5)` does on a cache miss, yields exactly
["ls -la", "git status", "cargo run", "cargo build", "cargo test"] with
adjusted confidences 1, 0.968, 0.935, 0.88, 0.77, the History-sourced
duplicate "git status" (scored 0.924) removed by dedup in favor of the
GitContext-sourced one. -/
theorem C1_worked_example : ∀ bs : List (List Prediction), bs.Perm workedBlocks →
    PredictionEngine.generate_predictions [] bs "" 5 = workedExpected := by
  intro bs hperm
  have hall : ∀ x ∈ workedBlocks.permutations,
      PredictionEngine.generate_predictions [] x "" 5 = workedExpected := by
    with_unfolding_all decide
  exact hall bs (List.mem_permutations.mpr hperm)

/-- Witness for C1: the blocks in their program order satisfy the theorem's
hypothesis, and the conclusion evaluates to the expected list. -/
theorem C1_witness :
    PredictionEngine.generate_predictions [] workedBlocks "" 5 = workedExpected :=
  C1_worked_example workedBlocks (List.Perm.refl workedBlocks)

/-! ## Shared helper lemmas -/

/-- A successful association-list lookup means the key occurs among the keys. -/
theorem lookup_mem_keys {β : Type} {k : String} :
    ∀ {l : List (String × β)} {e : β},
      List.lookup k l = some e → k ∈ l.map Prod.fst := by
  intro l
  induction l with
  | nil => intro e h; simp [List.lookup] at h
  | cons kv rest ih =>
    intro e h
    rw [List.lookup] at h
    rcases hka : (k == kv.fst) with _ | _
    · rw [hka] at h
      simpa using Or.inr (ih h)
    · simpa using Or.inl (eq_of_beq hka)

/-- A successful `find?` splits the list at the first match: everything
before the found element fails the test. -/
theorem find?_eq_some_split {α : Type} {f : α → Bool} :
    ∀ {l : List α} {b : α}, l.find? f = some b →
      ∃ l₁ l₂, l = l₁ ++ b :: l₂ ∧ ∀ a ∈ l₁, f a = false := by
  intro l
  induction l with
  | nil => intro b h; simp at h
  | cons x xs ih =>
    intro b h
    by_cases hx : f x
    · rw [List.find?_cons_of_pos _ hx] at h
      obtain rfl : x = b := by injection h
      exact ⟨[], xs, rfl, by simp⟩
    · rw [List.find?_cons_of_neg _ hx] at h
      obtain ⟨l₁, l₂, rfl, hall⟩ := ih h
      refine ⟨x :: l₁, l₂, rfl, ?_⟩
      intro a ha
      rcases List.mem_cons.mp ha with rfl | ha
      · simpa using hx
      · exact hall a ha

/-- If a list of characters is a verified Boolean prefix of another, appending
it to the remainder reconstructs the other list. -/
theorem isPrefixOf_append_drop :
    ∀ (l₁ l₂ : List Char), l₁.isPrefixOf l₂ = true →
      l₁ ++ l₂.drop l₁.length = l₂ := by
  intro l₁
  induction l₁ with
  | nil => intro l₂ _; simp
  | cons a as ih =>
    intro l₂ h
    cases l₂ with
    | nil => simp [List.isPrefixOf] at h
    | cons b bs =>
      rw [List.isPrefixOf, Bool.and_eq_true] at h
      obtain ⟨hab, hrest⟩ := h
      have : a = b := eq_of_beq hab
      subst this
      simpa using ih bs hrest

/-! ## C6: cache get, TTL semantics, lazy expiry -/

/-- C6: `get` returns none when the key is absent or the entry's age reaches
the TTL, returns the stored prediction list when the age is strictly below
the TTL, and an expired entry remains stored in the cache (lazy expiry):
its key is still among the cached keys even as `get` returns none. -/
theorem C6_get_ttl : ∀ (c : PredictionCache) (key : String) (now : Nat),
    (List.lookup key c.cache = none → PredictionCache.get c key now = none) ∧
    (∀ e, List.lookup key c.cache = some e →
      (now - e.timestamp < c.entry_ttl →
        PredictionCache.get c key now = some e.predictions) ∧
      (c.entry_ttl ≤ now - e.timestamp →
        PredictionCache.get c key now = none ∧ key ∈ c.cache.map Prod.fst)) := by
  intro c key now
  constructor
  · intro h
    unfold PredictionCache.get
    rw [h]
  · intro e he
    constructor
    · intro hfresh
      unfold PredictionCache.get
      rw [he]
      exact if_pos hfresh
    · intro hstale
      refine ⟨?_, lookup_mem_keys he⟩
      unfold PredictionCache.get
      rw [he]
      exact if_neg (not_lt.mpr hstale)

/-- Witness for C6: a cache holding one entry of age 10 against a TTL of 5
answers `get` with none while the key is still stored, and a fresh entry is
returned as stored. -/
theorem C6_witness :
    (PredictionCache.get ⟨[("ls", ⟨[], 0⟩)], 1000, 5⟩ "ls" 10 = none ∧
      "ls" ∈ (⟨[("ls", ⟨[], 0⟩)], 1000, 5⟩ : PredictionCache).cache.map Prod.fst) ∧
    PredictionCache.get ⟨[("ls", ⟨[], 0⟩)], 1000, 5⟩ "ls" 3 = some [] :=
  ⟨((C6_get_ttl ⟨[("ls", ⟨[], 0⟩)], 1000, 5⟩ "ls" 10).2 ⟨[], 0⟩ rfl).2 (by decide),
   ((C6_get_ttl ⟨[("ls", ⟨[], 0⟩)], 1000, 5⟩ "ls" 3).2 ⟨[], 0⟩ rfl).1 (by decide)⟩

/-! ## C7: parse failure on a cache miss -/

/-- C7: on a cache miss, if parsing the input fails, `predict` returns the
empty list and leaves the cache unchanged — the failure is never cached, and
no error reaches the caller (the return type carries no error case). -/
theorem C7_parse_failure : ∀ (parse : String → Option ParsedCommand)
    (generate : String → ParsedCommand → Nat → List Prediction)
    (c : PredictionCache) (input : String) (limit now : Nat),
    PredictionCache.get c input now = none →
    parse input = none →
    PredictionEngine.predict parse generate c input limit now = ([], c) := by
  intro parse generate c input limit now hget hparse
  simp [PredictionEngine.predict, hget, hparse]

/-- Witness for C7: an empty cache (a miss by construction) and an
always-failing parser produce the empty list and the unchanged cache. -/
theorem C7_witness :
    PredictionEngine.predict (fun _ => none) (fun _ _ _ => [])
      ⟨[], 1000, 300⟩ "((" 5 0 = ([], ⟨[], 1000, 300⟩) :=
  C7_parse_failure (fun _ => none) (fun _ _ _ => []) ⟨[], 1000, 300⟩ "((" 5 0 rfl rfl

/-! ## C9: ghost-text threshold filtering -/

/-- C9: `filter_for_ghost` returns the first prediction whose confidence is
at least the ghost threshold 0.4, and none when no element reaches it; on a
rank-sorted list it returns none whenever the head's confidence is below
0.4, even for a non-empty list. -/
theorem C9_filter_for_ghost : ∀ l : List Prediction,
    ((∀ p ∈ l, p.confidence.val < 4 / 10) →
      PredictionRanker.filter_for_ghost l = none) ∧
    (∀ p, PredictionRanker.filter_for_ghost l = some p →
      p ∈ l ∧ 4 / 10 ≤ p.confidence.val ∧
      ∃ l₁ l₂, l = l₁ ++ p :: l₂ ∧ ∀ q ∈ l₁, q.confidence.val < 4 / 10) ∧
    (∀ p rest, l = p :: rest →
      l.Pairwise (fun a b => b.confidence.val ≤ a.confidence.val) →
      p.confidence.val < 4 / 10 → PredictionRanker.filter_for_ghost l = none) := by
  intro l
  refine ⟨?_, ?_, ?_⟩
  · intro h
    apply List.find?_eq_none.mpr
    intro x hx
    simp only [Confidence.is_high_enough_for_ghost, decide_eq_true_eq]
    exact not_le.mpr (h x hx)
  · intro p hp
    refine ⟨List.mem_of_find?_eq_some hp, ?_, ?_⟩
    · have := List.find?_some hp
      simpa [Confidence.is_high_enough_for_ghost] using this
    · obtain ⟨l₁, l₂, rfl, hall⟩ := find?_eq_some_split hp
      refine ⟨l₁, l₂, rfl, ?_⟩
      intro q hq
      have := hall q hq
      simpa [Confidence.is_high_enough_for_ghost] using this
  · intro p rest hl hsorted hlow
    subst hl
    apply List.find?_eq_none.mpr
    intro x hx
    simp only [Confidence.is_high_enough_for_ghost, decide_eq_true_eq]
    rcases List.mem_cons.mp hx with rfl | hx
    · exact not_le.mpr hlow
    · have hle := (List.pairwise_cons.mp hsorted).1 x hx
      exact not_le.mpr (lt_of_le_of_lt hle hlow)

/-- Witness for C9: a non-empty sorted list headed by confidence 0.3 is
filtered to none. -/
theorem C9_witness :
    PredictionRanker.filter_for_ghost
      [Prediction.new "a" PredictionType.NextToken PredictionSource.History ⟨3 / 10⟩,
       Prediction.new "b" PredictionType.NextToken PredictionSource.History ⟨2 / 10⟩]
      = none :=
  (C9_filter_for_ghost
      [Prediction.new "a" PredictionType.NextToken PredictionSource.History ⟨3 / 10⟩,
       Prediction.new "b" PredictionType.NextToken PredictionSource.History ⟨2 / 10⟩]).2.2
    (Prediction.new "a" PredictionType.NextToken PredictionSource.History ⟨3 / 10⟩)
    [Prediction.new "b" PredictionType.NextToken PredictionSource.History ⟨2 / 10⟩]
    rfl (by with_unfolding_all decide) (by with_unfolding_all decide)

/-! ## C10: ghost text reconstruction -/

/-- C10: `get_ghost_text` returns the full text for empty input, exactly the
remaining suffix when the text starts with the input, and the empty string
when a non-empty input is not a prefix of the text; whenever the result is
non-empty, appending it to the typed input reproduces the text exactly. -/
theorem C10_ghost_text : ∀ (p : Prediction) (s : String),
    (s = "" → p.get_ghost_text s = p.text) ∧
    (s.data.isPrefixOf p.text.data = true →
      s ++ p.get_ghost_text s = p.text) ∧
    (s ≠ "" → s.data.isPrefixOf p.text.data = false → p.get_ghost_text s = "") ∧
    (p.get_ghost_text s ≠ "" → s ++ p.get_ghost_text s = p.text) := by
  intro p s
  have happend : s.data.isPrefixOf p.text.data = true →
      s ++ p.get_ghost_text s = p.text := by
    intro hpre
    by_cases hs : s = ""
    · subst hs
      simp [Prediction.get_ghost_text]
    · have h1 : p.get_ghost_text s = String.mk (p.text.data.drop s.data.length) := by
        simp [Prediction.get_ghost_text, hs, hpre]
      rw [h1]
      apply String.ext
      rw [String.data_append]
      exact isPrefixOf_append_drop s.data p.text.data hpre
  refine ⟨?_, happend, ?_, ?_⟩
  · intro hs
    simp [Prediction.get_ghost_text, hs]
  · intro hs hnot
    simp [Prediction.get_ghost_text, hs, hnot]
  · intro hne
    by_cases hs : s = ""
    · subst hs
      simp [Prediction.get_ghost_text]
    · by_cases hpre : s.data.isPrefixOf p.text.data
      · exact happend hpre
      · exfalso
        apply hne
        simp [Prediction.get_ghost_text, hs, Bool.of_not_eq_true hpre]

/-- Witness for C10: typing "git" against the prediction "git status" ghosts
exactly " status", which appended to the input reproduces the text. -/
theorem C10_witness :
    ("git" : String) ++
        (Prediction.new "git status" PredictionType.FullCommand
          PredictionSource.History ⟨1 / 2⟩).get_ghost_text "git"
      = "git status" :=
  (C10_ghost_text
      (Prediction.new "git status" PredictionType.FullCommand
        PredictionSource.History ⟨1 / 2⟩) "git").2.1 (by decide)

/-! ## C2: per-element scoring formula of rank -/

/-- The deduplication walk only ever removes elements. -/
theorem dedupGo_sublist : ∀ (l : List Prediction) (seen : List String),
    PredictionRanker.dedupGo seen l <+ l := by
  intro l
  induction l with
  | nil => intro seen; simp [PredictionRanker.dedupGo]
  | cons p rest ih =>
    intro seen
    rw [PredictionRanker.dedupGo]
    by_cases hp : p.text ∈ seen
    · rw [if_pos hp]
      exact (ih seen).cons p
    · rw [if_neg hp]
      exact (ih (p.text :: seen)).cons₂ p

/-- Every element of `rank l` is the scored copy of some input element. -/
theorem rank_mem_applyScore {l : List Prediction} {p : Prediction}
    (h : p ∈ PredictionRanker.rank l) :
    ∃ q ∈ l, p = PredictionRanker.applyScore q := by
  unfold PredictionRanker.rank PredictionRanker.dedup_predictions at h
  have h1 := (dedupGo_sublist _ []).subset h
  have h2 := (List.mem_insertionSort rankLe).mp h1
  obtain ⟨q, hq, hqe⟩ := List.mem_map.mp h2
  exact ⟨q, hq, hqe.symm⟩

/-- The scored confidence, written in the spec's shape
`min(1, c * ms * mt + b)`. -/
theorem applyScore_confidence (q : Prediction) :
    (PredictionRanker.applyScore q).confidence.val =
      min 1 (q.confidence.val *
        (match q.source with
          | PredictionSource.History => (12 : ℚ) / 10
          | PredictionSource.UserPatterns => (13 : ℚ) / 10
          | PredictionSource.GitContext => (11 : ℚ) / 10
          | _ => 1) *
        (match q.prediction_type with
          | PredictionType.FullCommand => (11 : ℚ) / 10
          | _ => 1) +
        (if 0 < q.usage_count then
            min ((q.usage_count : ℚ)) 5 / 5 * (2 / 10)
          else 0)) := by
  unfold PredictionRanker.applyScore
  rcases q with ⟨text, dt, pt, src, ⟨c⟩, tc, ex, uc, ts, md⟩
  rcases src <;> rcases pt <;> by_cases h : 0 < uc <;>
    simp [h, mul_one, add_zero, mul_assoc, min_comm]

/-- C2: every prediction in `rank`'s output is the scored copy of exactly one
pass over an input element, its confidence being
`min(1, c * ms * mt + b)` with source multiplier ms (History 1.2,
UserPatterns 1.3, GitContext 1.1, else 1), type multiplier mt (FullCommand
1.1, else 1) and usage bonus b = min(usage, 5)/5 * 0.2 when usage > 0, else
0; the scoring is applied once per `rank` call, never cumulatively. -/
theorem C2_scoring_formula : ∀ (l : List Prediction) (p : Prediction),
    p ∈ PredictionRanker.rank l →
    ∃ q ∈ l, p = PredictionRanker.applyScore q ∧
      p.confidence.val = min 1 (q.confidence.val *
        (match q.source with
          | PredictionSource.History => (12 : ℚ) / 10
          | PredictionSource.UserPatterns => (13 : ℚ) / 10
          | PredictionSource.GitContext => (11 : ℚ) / 10
          | _ => 1) *
        (match q.prediction_type with
          | PredictionType.FullCommand => (11 : ℚ) / 10
          | _ => 1) +
        (if 0 < q.usage_count then
            min ((q.usage_count : ℚ)) 5 / 5 * (2 / 10)
          else 0)) := by
  intro l p h
  obtain ⟨q, hq, rfl⟩ := rank_mem_applyScore h
  exact ⟨q, hq, rfl, applyScore_confidence q⟩

/-- Witness for C2: the scored "ls -la" History candidate is a member of
`rank` of the singleton list and satisfies the formula. -/
theorem C2_witness :
    ∃ q ∈ [Prediction.new "ls -la" PredictionType.FullCommand
        PredictionSource.History ⟨8 / 10⟩],
      PredictionRanker.applyScore (Prediction.new "ls -la"
        PredictionType.FullCommand PredictionSource.History ⟨8 / 10⟩)
        = PredictionRanker.applyScore q ∧
      (PredictionRanker.applyScore (Prediction.new "ls -la"
        PredictionType.FullCommand PredictionSource.History ⟨8 / 10⟩)).confidence.val
        = min 1 (q.confidence.val *
          (match q.source with
            | PredictionSource.History => (12 : ℚ) / 10
            | PredictionSource.UserPatterns => (13 : ℚ) / 10
            | PredictionSource.GitContext => (11 : ℚ) / 10
            | _ => 1) *
          (match q.prediction_type with
            | PredictionType.FullCommand => (11 : ℚ) / 10
            | _ => 1) +
          (if 0 < q.usage_count then
              min ((q.usage_count : ℚ)) 5 / 5 * (2 / 10)
            else 0)) :=
  C2_scoring_formula
    [Prediction.new "ls -la" PredictionType.FullCommand PredictionSource.History ⟨8 / 10⟩]
    (PredictionRanker.applyScore (Prediction.new "ls -la"
      PredictionType.FullCommand PredictionSource.History ⟨8 / 10⟩))
    (by with_unfolding_all decide)

/-! ## C5: learning adjustment and boost saturation -/

/-- Lookup after appending a fresh binding behind a list that misses the key. -/
theorem lookup_append_of_none {β : Type} {k : String} :
    ∀ {l : List (String × β)} {l₂ : List (String × β)},
      List.lookup k l = none → List.lookup k (l ++ l₂) = List.lookup k l₂ := by
  intro l
  induction l with
  | nil => intro l₂ _; rfl
  | cons kv rest ih =>
    intro l₂ h
    rw [List.lookup] at h
    rcases hka : (k == kv.fst) with _ | _
    · rw [hka] at h
      rw [List.cons_append, List.lookup, hka]
      exact ih h
    · rw [hka] at h
      exact absurd h (by simp)

/-- Lookup after replacing the value stored under a present key. -/
theorem lookup_map_replace {β : Type} {k : String} {v : β} :
    ∀ {l : List (String × β)} {e : β},
      List.lookup k l = some e →
      List.lookup k (l.map (fun kv => if kv.1 = k then (k, v) else kv)) = some v := by
  intro l
  induction l with
  | nil => intro e h; simp [List.lookup] at h
  | cons kv rest ih =>
    intro e h
    rw [List.lookup] at h
    rcases hka : (k == kv.fst) with _ | _
    · rw [hka] at h
      have hne : ¬ kv.1 = k := fun hc => by simp [hc] at hka
      rw [List.map_cons, if_neg hne, List.lookup, hka]
      exact ih h
    · have hak : kv.1 = k := (eq_of_beq hka).symm
      rw [List.map_cons, if_pos hak, List.lookup]
      simp

/-- The count stored for a command after one acceptance: one more than
before, or 1 when the command was new; `last_used` becomes the current time. -/
theorem lookup_record (patterns : PatternMap) (q : Prediction) (now : Nat) :
    List.lookup q.text
        (UserLearningSystem.record_accepted_prediction patterns q now)
      = some ⟨(match List.lookup q.text patterns with
               | some e => e.count + 1
               | none => 1), now⟩ := by
  cases h : List.lookup q.text patterns with
  | none =>
    simp only [UserLearningSystem.record_accepted_prediction, h]
    rw [lookup_append_of_none h]
    simp [List.lookup]
  | some e =>
    simp only [UserLearningSystem.record_accepted_prediction, h]
    exact lookup_map_replace h

/-- After `n + 1` acceptances of the same prediction the stored count is at
least `n + 1`. -/
theorem lookup_recordN (patterns : PatternMap) (q : Prediction) (now : Nat) :
    ∀ n : Nat, ∃ c, List.lookup q.text
        (UserLearningSystem.recordN patterns q now (n + 1)) = some ⟨c, now⟩ ∧
      n + 1 ≤ c := by
  intro n
  induction n with
  | zero =>
    refine ⟨_, lookup_record patterns q now, ?_⟩
    cases List.lookup q.text patterns <;> simp
  | succ k ih =>
    obtain ⟨c, hl, hc⟩ := ih
    refine ⟨c + 1, ?_, by omega⟩
    show List.lookup q.text
        (UserLearningSystem.record_accepted_prediction
          (UserLearningSystem.recordN patterns q now (k + 1)) q now) = _
    rw [lookup_record]
    rw [hl]

/-- C5: `adjust_scores` maps each prediction whose text has a learned
pattern of count c to the same prediction with confidence
`min(confidence + min(c, 10)/10, 1)` and leaves every unmatched prediction
untouched; after ten or more acceptances of a text, the boost saturates at
the maximum 1.0, capped so the result is at most 1. -/
theorem C5_adjust_scores :
    (∀ (patterns : PatternMap) (preds : List Prediction) (input : String),
      (UserLearningSystem.adjust_scores patterns preds input).length
        = preds.length) ∧
    (∀ (patterns : PatternMap) (preds : List Prediction) (input : String)
      (i : Nat) (hi : i < preds.length)
      (hi' : i < (UserLearningSystem.adjust_scores patterns preds input).length),
      (UserLearningSystem.adjust_scores patterns preds input).get ⟨i, hi'⟩ =
        match List.lookup (preds.get ⟨i, hi⟩).text patterns with
        | some pattern =>
            { preds.get ⟨i, hi⟩ with confidence :=
                ⟨min ((preds.get ⟨i, hi⟩).confidence.val
                  + min ((pattern.count : ℚ)) 10 / 10) 1⟩ }
        | none => preds.get ⟨i, hi⟩) ∧
    (∀ (m : PatternMap) (q p : Prediction) (now n : Nat) (input : String),
      10 ≤ n → p.text = q.text →
      UserLearningSystem.adjust_scores
          (UserLearningSystem.recordN m q now n) [p] input
        = [{ p with confidence := ⟨min (p.confidence.val + 1) 1⟩ }]) := by
  refine ⟨?_, ?_, ?_⟩
  · intro patterns preds input
    simp [UserLearningSystem.adjust_scores]
  · intro patterns preds input i hi hi'
    simp only [UserLearningSystem.adjust_scores, List.get_eq_getElem,
      List.getElem_map]
  · intro m q p now n input hn hpq
    obtain ⟨k, rfl⟩ : ∃ k, n = k + 1 := ⟨n - 1, by omega⟩
    obtain ⟨c, hl, hc⟩ := lookup_recordN m q now k
    have hc10 : (10 : ℚ) ≤ (c : ℚ) := by
      have : (10 : Nat) ≤ c := by omega
      exact_mod_cast this
    have hmin : min ((c : ℚ)) 10 = 10 := min_eq_right hc10
    simp only [UserLearningSystem.adjust_scores, List.map_cons, List.map_nil,
      hpq, hl, hmin]
    norm_num

/-- Witness for C5: after ten acceptances of "cargo test" starting from an
empty pattern map, a candidate with that text and confidence 0.5 is boosted
to exactly 1. -/
theorem C5_witness :
    UserLearningSystem.adjust_scores
        (UserLearningSystem.recordN []
          (Prediction.new "cargo test" PredictionType.FullCommand
            PredictionSource.ProjectType ⟨1 / 2⟩) 7 10)
        [Prediction.new "cargo test" PredictionType.FullCommand
          PredictionSource.ProjectType ⟨1 / 2⟩] ""
      = [{ Prediction.new "cargo test" PredictionType.FullCommand
            PredictionSource.ProjectType ⟨1 / 2⟩ with
          confidence := ⟨min ((1 : ℚ) / 2 + 1) 1⟩ }] :=
  C5_adjust_scores.2.2 []
    (Prediction.new "cargo test" PredictionType.FullCommand
      PredictionSource.ProjectType ⟨1 / 2⟩)
    (Prediction.new "cargo test" PredictionType.FullCommand
      PredictionSource.ProjectType ⟨1 / 2⟩)
    7 10 "" (by decide) rfl

/-! ## C3: rank output is sorted, stable, and deduplicated by text -/

/-- Scoring never changes the text of a prediction. -/
theorem applyScore_text (p : Prediction) :
    (PredictionRanker.applyScore p).text = p.text := rfl

/-- Membership in the deduplication walk: an element survives exactly when
its text is not among the already-seen texts and it is the first element of
the remaining list bearing its text. -/
theorem dedupGo_mem_iff : ∀ (l : List Prediction) (seen : List String)
    (p : Prediction),
    p ∈ PredictionRanker.dedupGo seen l ↔
      p.text ∉ seen ∧ l.find? (fun q => q.text == p.text) = some p := by
  intro l
  induction l with
  | nil =>
    intro seen p
    simp [PredictionRanker.dedupGo]
  | cons x rest ih =>
    intro seen p
    rw [PredictionRanker.dedupGo]
    by_cases hx : x.text ∈ seen
    · rw [if_pos hx]
      by_cases hxt : x.text = p.text
      · rw [List.find?_cons_of_pos _ (by simp [hxt])]
        have hps : p.text ∈ seen := hxt ▸ hx
        rw [ih seen p]
        simp [hps]
      · rw [List.find?_cons_of_neg _ (by simp [hxt])]
        exact ih seen p
    · rw [if_neg hx]
      by_cases hxt : x.text = p.text
      · rw [List.find?_cons_of_pos _ (by simp [hxt])]
        simp only [List.mem_cons, ih (x.text :: seen) p, Option.some.injEq]
        constructor
        · rintro (rfl | ⟨hnotin, hfind⟩)
          · exact ⟨hxt ▸ hx, rfl⟩
          · exact absurd (by simp [← hxt]) hnotin
        · rintro ⟨hnotin, h⟩
          exact Or.inl h.symm
      · rw [List.find?_cons_of_neg _ (by simp [hxt])]
        simp only [List.mem_cons, ih (x.text :: seen) p]
        constructor
        · rintro (rfl | ⟨hnotin, hfind⟩)
          · exact absurd rfl hxt
          · exact ⟨fun hs => hnotin (Or.inr hs), hfind⟩
        · rintro ⟨hnotin, hfind⟩
          refine Or.inr ⟨?_, hfind⟩
          rintro (heq | hs)
          · exact hxt heq.symm
          · exact hnotin hs

/-- Texts seen before the walk never reappear in its output. -/
theorem dedupGo_not_mem_of_seen : ∀ (l : List Prediction) (seen : List String)
    {t : String}, t ∈ seen →
    t ∉ (PredictionRanker.dedupGo seen l).map (fun p => p.text) := by
  intro l
  induction l with
  | nil =>
    intro seen t ht
    simp [PredictionRanker.dedupGo]
  | cons x rest ih =>
    intro seen t ht
    rw [PredictionRanker.dedupGo]
    by_cases hx : x.text ∈ seen
    · rw [if_pos hx]
      exact ih seen ht
    · rw [if_neg hx]
      rw [List.map_cons]
      intro hmem
      rcases List.mem_cons.mp hmem with heq | hs
      · exact hx (heq ▸ ht)
      · exact ih (x.text :: seen) (List.mem_cons_of_mem _ ht) hs

/-- The deduplication walk leaves no two surviving predictions with the same
text. -/
theorem dedupGo_text_nodup : ∀ (l : List Prediction) (seen : List String),
    ((PredictionRanker.dedupGo seen l).map (fun p => p.text)).Nodup := by
  intro l
  induction l with
  | nil =>
    intro seen
    simp [PredictionRanker.dedupGo]
  | cons x rest ih =>
    intro seen
    rw [PredictionRanker.dedupGo]
    by_cases hx : x.text ∈ seen
    · rw [if_pos hx]
      exact ih seen
    · rw [if_neg hx]
      rw [List.map_cons, List.nodup_cons]
      exact ⟨dedupGo_not_mem_of_seen rest (x.text :: seen) (List.mem_cons_self _ _),
        ih (x.text :: seen)⟩

/-- C3: after `rank`, the list is sorted by non-increasing adjusted
confidence; texts are pairwise distinct; an element is in the output exactly
when it is the first occurrence of its text in the sorted scored list; the
stable sort keeps any equal-confidence run in its pre-sort relative order;
and of two same-text candidates the one with the strictly higher post-scoring
confidence is the one that survives. -/
theorem C3_sort_dedup : (∀ l : List Prediction,
    (PredictionRanker.rank l).Pairwise
      (fun a b => b.confidence.val ≤ a.confidence.val) ∧
    ((PredictionRanker.rank l).map (fun p => p.text)).Nodup ∧
    (∀ p : Prediction, p ∈ PredictionRanker.rank l ↔
      (List.insertionSort rankLe (l.map PredictionRanker.applyScore)).find?
        (fun q => q.text == p.text) = some p) ∧
    (∀ l' : List Prediction, l' <+ l.map PredictionRanker.applyScore →
      l'.Pairwise (fun a b => a.confidence.val = b.confidence.val) →
      l' <+ List.insertionSort rankLe (l.map PredictionRanker.applyScore))) ∧
  (∀ a b : Prediction, a.text = b.text →
    (PredictionRanker.applyScore a).confidence.val
      < (PredictionRanker.applyScore b).confidence.val →
    PredictionRanker.rank [a, b] = [PredictionRanker.applyScore b]) := by
  constructor
  · intro l
    refine ⟨?_, ?_, ?_, ?_⟩
    · have hsorted : (List.insertionSort rankLe
          (l.map PredictionRanker.applyScore)).Pairwise rankLe :=
        List.sorted_insertionSort rankLe (l.map PredictionRanker.applyScore)
      have hsub := dedupGo_sublist
        (List.insertionSort rankLe (l.map PredictionRanker.applyScore)) []
      exact (hsorted.sublist hsub).imp (fun h => h)
    · exact dedupGo_text_nodup _ []
    · intro p
      unfold PredictionRanker.rank PredictionRanker.dedup_predictions
      rw [dedupGo_mem_iff]
      simp
    · intro l' hsub heq
      exact List.sublist_insertionSort
        (heq.imp (fun h => le_of_eq h.symm)) hsub
  · intro a b hab hlt
    have hne : ¬ rankLe (PredictionRanker.applyScore a)
        (PredictionRanker.applyScore b) := not_le.mpr hlt
    unfold PredictionRanker.rank PredictionRanker.dedup_predictions
    simp only [List.map_cons, List.map_nil, List.insertionSort,
      List.orderedInsert]
    rw [if_neg hne]
    simp [PredictionRanker.dedupGo, applyScore_text, hab]

/-- Witness for C3: the two "git status" candidates of the worked example —
History at 0.7 (scored 0.924) and GitContext at 0.8 (scored 0.968) — are
deduplicated to the GitContext-sourced one. -/
theorem C3_witness :
    PredictionRanker.rank
        [Prediction.new "git status" PredictionType.FullCommand
          PredictionSource.History ⟨7 / 10⟩,
         Prediction.new "git status" PredictionType.FullCommand
          PredictionSource.GitContext ⟨8 / 10⟩]
      = [PredictionRanker.applyScore
          (Prediction.new "git status" PredictionType.FullCommand
            PredictionSource.GitContext ⟨8 / 10⟩)] :=
  C3_sort_dedup.2
    (Prediction.new "git status" PredictionType.FullCommand
      PredictionSource.History ⟨7 / 10⟩)
    (Prediction.new "git status" PredictionType.FullCommand
      PredictionSource.GitContext ⟨8 / 10⟩)
    rfl (by with_unfolding_all decide)

/-! ## C8: permutation invariance of rank -/

/-- Counterexample to C8 as stated: two distinct-text predictions with equal
confidence are a permutation of each other in either order, yet `rank`
returns them in their input order (stable sort), so the two outputs differ. -/
theorem C8_counterexample :
    ([Prediction.new "alpha" PredictionType.NextToken
        PredictionSource.CommandPatterns ⟨1 / 2⟩,
      Prediction.new "beta" PredictionType.NextToken
        PredictionSource.CommandPatterns ⟨1 / 2⟩].Perm
      [Prediction.new "beta" PredictionType.NextToken
        PredictionSource.CommandPatterns ⟨1 / 2⟩,
       Prediction.new "alpha" PredictionType.NextToken
        PredictionSource.CommandPatterns ⟨1 / 2⟩]) ∧
    PredictionRanker.rank
        [Prediction.new "alpha" PredictionType.NextToken
          PredictionSource.CommandPatterns ⟨1 / 2⟩,
         Prediction.new "beta" PredictionType.NextToken
          PredictionSource.CommandPatterns ⟨1 / 2⟩]
      ≠ PredictionRanker.rank
        [Prediction.new "beta" PredictionType.NextToken
          PredictionSource.CommandPatterns ⟨1 / 2⟩,
         Prediction.new "alpha" PredictionType.NextToken
          PredictionSource.CommandPatterns ⟨1 / 2⟩] := by
  constructor
  · exact List.Perm.swap _ _ _
  · with_unfolding_all decide

/-- C8 amended: for two inputs that are permutations of each other whose
post-scoring confidences are pairwise distinct (no ties), `rank` produces
exactly the same output list — so with distinct adjusted scores the output
is independent of source completion order.  (As stated the claim fails:
with tied post-scoring confidences the stable sort preserves the two
different input orders, see the counterexample.) -/
theorem C8_rank_deterministic : ∀ l₁ l₂ : List Prediction, l₁.Perm l₂ →
    ((l₁.map PredictionRanker.applyScore).map
      (fun p => p.confidence.val)).Nodup →
    PredictionRanker.rank l₁ = PredictionRanker.rank l₂ := by
  intro l₁ l₂ hperm hnodup
  have hm : l₁.map PredictionRanker.applyScore ~ l₂.map PredictionRanker.applyScore :=
    hperm.map _
  have hp₁ := List.perm_insertionSort rankLe (l₁.map PredictionRanker.applyScore)
  have hp₂ := List.perm_insertionSort rankLe (l₂.map PredictionRanker.applyScore)
  have hs₁ := List.sorted_insertionSort rankLe (l₁.map PredictionRanker.applyScore)
  have hs₂ := List.sorted_insertionSort rankLe (l₂.map PredictionRanker.applyScore)
  have hperm12 : List.insertionSort rankLe (l₁.map PredictionRanker.applyScore)
      ~ List.insertionSort rankLe (l₂.map PredictionRanker.applyScore) :=
    hp₁.trans (hm.trans hp₂.symm)
  have hnodup₂ : ((l₂.map PredictionRanker.applyScore).map
      (fun p => p.confidence.val)).Nodup := ((hm.map _).nodup_iff).mp hnodup
  have hn₁ : ((List.insertionSort rankLe
      (l₁.map PredictionRanker.applyScore)).map
        (fun p => p.confidence.val)).Nodup := ((hp₁.map _).nodup_iff).mpr hnodup
  have hn₂ : ((List.insertionSort rankLe
      (l₂.map PredictionRanker.applyScore)).map
        (fun p => p.confidence.val)).Nodup := ((hp₂.map _).nodup_iff).mpr hnodup₂
  have strict : ∀ s : List Prediction, s.Pairwise rankLe →
      (s.map (fun p => p.confidence.val)).Nodup →
      s.Pairwise (fun a b => b.confidence.val < a.confidence.val) := by
    intro s hs hn
    have hne : s.Pairwise (fun a b => a.confidence.val ≠ b.confidence.val) :=
      List.pairwise_map.mp hn
    exact (hs.and hne).imp (fun h => lt_of_le_of_ne h.1 (Ne.symm h.2))
  haveI : IsAntisymm Prediction (fun a b => b.confidence.val < a.confidence.val) :=
    ⟨fun a b h₁ h₂ => absurd (h₁.trans h₂) (lt_irrefl _)⟩
  have hsorteq := List.eq_of_perm_of_sorted hperm12
    (strict _ hs₁ hn₁) (strict _ hs₂ hn₂)
  unfold PredictionRanker.rank PredictionRanker.dedup_predictions
  rw [hsorteq]

/-- Witness for C8's amended theorem: two candidates with distinct
post-scoring confidences rank identically from either input order. -/
theorem C8_witness :
    PredictionRanker.rank
        [Prediction.new "pwd" PredictionType.NextToken
          PredictionSource.CommandPatterns ⟨1 / 2⟩,
         Prediction.new "top" PredictionType.NextToken
          PredictionSource.CommandPatterns ⟨1 / 4⟩]
      = PredictionRanker.rank
        [Prediction.new "top" PredictionType.NextToken
          PredictionSource.CommandPatterns ⟨1 / 4⟩,
         Prediction.new "pwd" PredictionType.NextToken
          PredictionSource.CommandPatterns ⟨1 / 2⟩] :=
  C8_rank_deterministic
    [Prediction.new "pwd" PredictionType.NextToken
      PredictionSource.CommandPatterns ⟨1 / 2⟩,
     Prediction.new "top" PredictionType.NextToken
      PredictionSource.CommandPatterns ⟨1 / 4⟩]
    [Prediction.new "top" PredictionType.NextToken
      PredictionSource.CommandPatterns ⟨1 / 4⟩,
     Prediction.new "pwd" PredictionType.NextToken
      PredictionSource.CommandPatterns ⟨1 / 2⟩]
    (List.Perm.swap _ _ _) (by with_unfolding_all decide)

/-! ## C4: cache capacity and eviction order -/

/-- Splitting a list by a Boolean test partitions its length. -/
theorem length_filter_partition {α : Type} (p : α → Bool) :
    ∀ l : List α,
      (l.filter p).length + (l.filter (fun a => !(p a))).length = l.length := by
  intro l
  induction l with
  | nil => rfl
  | cons x xs ih => by_cases h : p x <;> simp [List.filter, h, ← ih] <;> omega

/-- With pairwise-distinct keys, a key determines its entry. -/
theorem nodup_keys_unique : ∀ {m : List (String × CacheEntry)},
    (m.map Prod.fst).Nodup → ∀ {k : String} {a b : CacheEntry},
      (k, a) ∈ m → (k, b) ∈ m → a = b := by
  intro m
  induction m with
  | nil => intro _ k a b ha _; simp at ha
  | cons kv rest ih =>
    intro hnd k a b ha hb
    rw [List.map_cons, List.nodup_cons] at hnd
    rcases List.mem_cons.mp ha with ha | ha <;> rcases List.mem_cons.mp hb with hb | hb
    · exact congrArg Prod.snd (ha.trans hb.symm)
    · exfalso
      apply hnd.1
      rw [← ha]
      exact List.mem_map.mpr ⟨(k, b), hb, rfl⟩
    · exfalso
      apply hnd.1
      rw [← hb]
      exact List.mem_map.mpr ⟨(k, a), ha, rfl⟩
    · exact ih hnd.2 ha hb

/-- The capacity phase only removes entries. -/
theorem removeOldestThird_sublist (max_entries : Nat)
    (retained : List (String × CacheEntry)) :
    removeOldestThird max_entries retained <+ retained := by
  simp only [removeOldestThird]
  exact List.filter_sublist _

/-- Cleanup output is a sub-collection of the TTL-fresh entries. -/
theorem cleanup_sublist_retained (max_entries entry_ttl : Nat)
    (m : List (String × CacheEntry)) (now : Nat) :
    PredictionCache.cleanup_cache max_entries entry_ttl m now
      <+ m.filter (fun kv => decide (now - kv.2.timestamp < entry_ttl)) := by
  simp only [PredictionCache.cleanup_cache]
  split
  · exact removeOldestThird_sublist _ _
  · exact List.Sublist.refl _

/-- Cleanup output is a sub-collection of the original entries. -/
theorem cleanup_sublist (max_entries entry_ttl : Nat)
    (m : List (String × CacheEntry)) (now : Nat) :
    PredictionCache.cleanup_cache max_entries entry_ttl m now <+ m :=
  (cleanup_sublist_retained max_entries entry_ttl m now).trans
    (List.filter_sublist m)

/-- Inserting an absent key appends the binding. -/
theorem insertEntry_append {m : List (String × CacheEntry)} {key : String}
    {e : CacheEntry} (hkey : key ∉ m.map Prod.fst) :
    insertEntry m key e = m ++ [(key, e)] := by
  unfold insertEntry
  rw [if_neg]
  intro hany
  rw [List.any_eq_true] at hany
  obtain ⟨kv, hkv, hbeq⟩ := hany
  exact hkey (List.mem_map.mpr ⟨kv, hkv, eq_of_beq hbeq⟩)

/-- When the fresh entries still fill the capacity `max_entries ≥ 3` with
pairwise-distinct keys, the capacity phase strictly shrinks them. -/
theorem removeOldestThird_length {max_entries : Nat}
    {retained : List (String × CacheEntry)} (h3 : 3 ≤ max_entries)
    (hRlen : retained.length = max_entries)
    (hnd : (retained.map Prod.fst).Nodup) :
    (removeOldestThird max_entries retained).length < max_entries := by
  simp only [removeOldestThird]
  have hsort_perm : List.insertionSort
      (fun a b => a.2.timestamp ≤ b.2.timestamp) retained ~ retained :=
    List.perm_insertionSort _ retained
  set K := ((List.insertionSort (fun a b => a.2.timestamp ≤ b.2.timestamp)
      retained).take (max_entries / 3)).map Prod.fst with hK
  have hKlen : K.length = max_entries / 3 := by
    rw [hK, List.length_map, List.length_take, List.length_insertionSort, hRlen]
    exact Nat.min_eq_left (Nat.div_le_self max_entries 3)
  have hKnd : K.Nodup := by
    have h1 : K <+ (List.insertionSort
        (fun a b => a.2.timestamp ≤ b.2.timestamp) retained).map Prod.fst :=
      (List.take_sublist _ _).map _
    have h2 : ((List.insertionSort
        (fun a b => a.2.timestamp ≤ b.2.timestamp) retained).map Prod.fst).Nodup :=
      ((hsort_perm.map Prod.fst).nodup_iff).mpr hnd
    exact h1.nodup h2
  have hKsub : ∀ k ∈ K, k ∈ retained.map Prod.fst := by
    intro k hk
    exact (hsort_perm.map Prod.fst).subset
      (((List.take_sublist _ _).map Prod.fst).subset hk)
  have hKdrop : ∀ k ∈ K, k ∈ (retained.filter
      (fun kv => K.contains kv.1)).map Prod.fst := by
    intro k hk
    obtain ⟨kv, hkv, hfst⟩ := List.mem_map.mp (hKsub k hk)
    refine List.mem_map.mpr ⟨kv, List.mem_filter.mpr ⟨hkv, ?_⟩, hfst⟩
    rw [hfst]
    simp [List.contains, List.elem_eq_mem, hk]
  have hdropped : max_entries / 3
      ≤ (retained.filter (fun kv => K.contains kv.1)).length := by
    have hsubperm : K <+~ (retained.filter
        (fun kv => K.contains kv.1)).map Prod.fst :=
      List.subperm_of_subset hKnd hKdrop
    have hle := hsubperm.length_le
    rw [hKlen, List.length_map] at hle
    exact hle
  have h13 : 1 ≤ max_entries / 3 := Nat.div_pos h3 (by norm_num)
  have hsum := length_filter_partition (fun kv => K.contains kv.1) retained
  rw [hRlen] at hsum
  omega

/-- As above, through the whole cleanup. -/
theorem cleanup_length_lt {max_entries : Nat} (entry_ttl : Nat)
    {m : List (String × CacheEntry)} (now : Nat) (h3 : 3 ≤ max_entries)
    (hlen : m.length = max_entries) (hnd : (m.map Prod.fst).Nodup) :
    (PredictionCache.cleanup_cache max_entries entry_ttl m now).length
      < max_entries := by
  have hretsub := List.filter_sublist
    (p := fun kv => decide (now - kv.2.timestamp < entry_ttl)) m
  simp only [PredictionCache.cleanup_cache]
  split
  case isTrue h =>
    apply removeOldestThird_length h3
    · exact le_antisymm (hlen ▸ hretsub.length_le) h
    · exact (hretsub.map Prod.fst).nodup hnd
  case isFalse h => omega

/-- Counterexample to C4 as stated: with `max_entries = 1`, a full cache of
one fresh entry (all the claim's hypotheses hold), inserting one further
non-empty entry under a new key grows the cache to 2 entries — the
oldest-third removal `1 / 3 = 0` evicts nothing. -/
theorem C4_counterexample :
    (⟨[("a", ⟨[Prediction.new "ls" PredictionType.Path
        PredictionSource.History ⟨1 / 2⟩], 0⟩)], 1, 100⟩ :
      PredictionCache).cache.length
      = (⟨[("a", ⟨[Prediction.new "ls" PredictionType.Path
          PredictionSource.History ⟨1 / 2⟩], 0⟩)], 1, 100⟩ :
        PredictionCache).max_entries ∧
    ((⟨[("a", ⟨[Prediction.new "ls" PredictionType.Path
        PredictionSource.History ⟨1 / 2⟩], 0⟩)], 1, 100⟩ :
      PredictionCache).cache.map Prod.fst).Nodup ∧
    "b" ∉ (⟨[("a", ⟨[Prediction.new "ls" PredictionType.Path
        PredictionSource.History ⟨1 / 2⟩], 0⟩)], 1, 100⟩ :
      PredictionCache).cache.map Prod.fst ∧
    [Prediction.new "ls" PredictionType.Path PredictionSource.History ⟨1 / 2⟩]
      ≠ ([] : List Prediction) ∧
    (PredictionCache.set
        ⟨[("a", ⟨[Prediction.new "ls" PredictionType.Path
            PredictionSource.History ⟨1 / 2⟩], 0⟩)], 1, 100⟩
        "b" [Prediction.new "ls" PredictionType.Path
          PredictionSource.History ⟨1 / 2⟩] 0).cache.length = 2 := by
  with_unfolding_all decide

/-- C4 amended: for every `max_entries ≥ 3` (as the counterexample shows,
`max_entries ≤ 2` can overflow, since `max_entries / 3 = 0` entries are
evicted), a cache holding exactly `max_entries` distinct-keyed entries stays
within `max_entries` after a further `set` under a fresh key; in the
triggered eviction every entry whose age is at least the TTL is removed, and
the age-ordered oldest-third removal does not occur when expiry alone
brought the cache below capacity (every fresh entry then survives). -/
theorem C4_eviction : ∀ (c : PredictionCache) (key : String)
    (preds : List Prediction) (now : Nat),
    3 ≤ c.max_entries →
    c.cache.length = c.max_entries →
    (c.cache.map Prod.fst).Nodup →
    key ∉ c.cache.map Prod.fst →
    preds ≠ [] →
    (PredictionCache.set c key preds now).cache.length ≤ c.max_entries ∧
    (∀ k e, (k, e) ∈ c.cache → c.entry_ttl ≤ now - e.timestamp →
      k ∉ (PredictionCache.set c key preds now).cache.map Prod.fst) ∧
    ((c.cache.filter (fun kv =>
        decide (now - kv.2.timestamp < c.entry_ttl))).length < c.max_entries →
      ∀ kv ∈ c.cache, now - kv.2.timestamp < c.entry_ttl →
        kv ∈ (PredictionCache.set c key preds now).cache) := by
  intro c key preds now h3 hlen hnd hkey hne
  have hset : (PredictionCache.set c key preds now).cache
      = insertEntry (PredictionCache.cleanup_cache
          c.max_entries c.entry_ttl c.cache now) key ⟨preds, now⟩ := by
    simp only [PredictionCache.set]
    rw [if_neg hne, if_pos hlen.ge]
  have hcl_ret := cleanup_sublist_retained c.max_entries c.entry_ttl c.cache now
  have hcl_m := cleanup_sublist c.max_entries c.entry_ttl c.cache now
  have hkey_cl : key ∉ (PredictionCache.cleanup_cache
      c.max_entries c.entry_ttl c.cache now).map Prod.fst :=
    fun hmem => hkey ((hcl_m.map Prod.fst).subset hmem)
  have hinsert : insertEntry (PredictionCache.cleanup_cache
      c.max_entries c.entry_ttl c.cache now) key ⟨preds, now⟩
      = PredictionCache.cleanup_cache c.max_entries c.entry_ttl c.cache now
        ++ [(key, ⟨preds, now⟩)] := insertEntry_append hkey_cl
  refine ⟨?_, ?_, ?_⟩
  · rw [hset, hinsert, List.length_append]
    have hclen := cleanup_length_lt c.entry_ttl now h3 hlen hnd
    simp only [List.length_singleton]
    omega
  · intro k e hke hstale
    rw [hset, hinsert, List.map_append]
    intro hmem
    rcases List.mem_append.mp hmem with hmem | hmem
    · obtain ⟨kv, hkv, hfst⟩ := List.mem_map.mp hmem
      have hkv_ret := hcl_ret.subset hkv
      have hkv_m : kv ∈ c.cache := (List.filter_sublist _).subset hkv_ret
      have h2 : (k, kv.2) ∈ c.cache := by
        rw [← hfst, Prod.mk.eta]
        exact hkv_m
      have heq : kv.2 = e := nodup_keys_unique hnd h2 hke
      have hfilter := (List.mem_filter.mp hkv_ret).2
      rw [heq] at hfilter
      have := of_decide_eq_true hfilter
      omega
    · have hk : k = key := by simpa using hmem
      exact hkey (hk ▸ List.mem_map.mpr ⟨(k, e), hke, rfl⟩)
  · intro hlt kv hkv hfresh
    have hcl_eq : PredictionCache.cleanup_cache
        c.max_entries c.entry_ttl c.cache now
        = c.cache.filter (fun kv =>
            decide (now - kv.2.timestamp < c.entry_ttl)) := by
      simp only [PredictionCache.cleanup_cache]
      rw [if_neg (not_le.mpr hlt)]
    rw [hset, hinsert, hcl_eq]
    exact List.mem_append_left _
      (List.mem_filter.mpr ⟨hkv, decide_eq_true hfresh⟩)

/-- Witness for C4's amended theorem: a full three-entry cache with
`max_entries = 3` (one entry already expired) accepts a fourth key without
exceeding capacity, drops the expired entry, and keeps the fresh ones. -/
theorem C4_witness :
    (PredictionCache.set
        ⟨[("a", ⟨[Prediction.new "ls" PredictionType.Path
            PredictionSource.History ⟨1 / 2⟩], 0⟩),
          ("b", ⟨[Prediction.new "ls" PredictionType.Path
            PredictionSource.History ⟨1 / 2⟩], 8⟩),
          ("c", ⟨[Prediction.new "ls" PredictionType.Path
            PredictionSource.History ⟨1 / 2⟩], 9⟩)], 3, 5⟩
        "d" [Prediction.new "ls" PredictionType.Path
          PredictionSource.History ⟨1 / 2⟩] 10).cache.length ≤ 3 :=
  (C4_eviction
    ⟨[("a", ⟨[Prediction.new "ls" PredictionType.Path
        PredictionSource.History ⟨1 / 2⟩], 0⟩),
      ("b", ⟨[Prediction.new "ls" PredictionType.Path
        PredictionSource.History ⟨1 / 2⟩], 8⟩),
      ("c", ⟨[Prediction.new "ls" PredictionType.Path
        PredictionSource.History ⟨1 / 2⟩], 9⟩)], 3, 5⟩
    "d" [Prediction.new "ls" PredictionType.Path
      PredictionSource.History ⟨1 / 2⟩] 10
    (by decide) (by decide) (by decide) (by decide)
    (by with_unfolding_all decide)).1

end RustFig
